import Mathlib

/-!
Verification of the renewal-process simulation core of a
renewal-equation epidemiological modeling toolkit.

The Lean definitions below are shallow embeddings of the Python source:

* `Pyrenew.scan` models `jax.lax.scan` (carried state threaded left to
  right, per-step outputs collected into a list).
* `Pyrenew.new_convolve_scanner` and `Pyrenew.new_double_convolve_scanner`
  model the scan-step factory functions in `pyrenew/convolve.py`.
* `Pyrenew.compute_infections_from_rt` and
  `Pyrenew.compute_infections_from_rt_with_feedback` model
  `pyrenew/latent/infection_functions.py`.

Scalars are modelled by an arbitrary field `K` (instantiated at `ℚ` for
concrete evaluations); the exponential transform that the source fixes as
`ExpTransform()` is kept as an explicit function parameter `expT`, so that
theorems quantify over it (the source instantiates it with the real
exponential; every theorem below holds for that instantiation).
-/

namespace Pyrenew

variable {K : Type} [Field K]

/-- Model of `jax.lax.scan`: thread a carry through `xs`, collecting the
per-step outputs. -/
def scan {σ τ β : Type} (f : σ → τ → σ × β) : σ → List τ → σ × List β
  | s, [] => (s, [])
  | s, x :: xs =>
    let step := f s x
    let rest := scan f step.1 xs
    (rest.1, step.2 :: rest.2)

/-- Model of `jnp.dot` on two 1-D arrays: sum of elementwise products. -/
def dot (a b : List K) : K :=
  (List.zipWith (fun u v => u * v) a b).sum

/-- Embedding of `new_convolve_scanner` (`pyrenew/convolve.py`): given a
kernel `array_to_convolve` and a `transform`, return the step function
that computes `new_val = transform (multiplier * dot kernel history)` and
shifts the history window. -/
def new_convolve_scanner (array_to_convolve : List K) (transform : K → K) :
    List K → K → List K × K :=
  fun history_subset multiplier =>
    let new_val := transform (multiplier * dot array_to_convolve history_subset)
    (history_subset.drop 1 ++ [new_val], new_val)

/-- Embedding of `new_double_convolve_scanner` (`pyrenew/convolve.py`):
two kernels and two transforms; the output of the first stage `m_net1`
multiplies the multiplier of the second stage. -/
def new_double_convolve_scanner (arrays_to_convolve : List K × List K)
    (transforms : (K → K) × (K → K)) :
    List K → K × K → List K × (K × K) :=
  fun history_subset multipliers =>
    let m_net1 := transforms.1 (multipliers.1 * dot arrays_to_convolve.1 history_subset)
    let new_val :=
      transforms.2 (multipliers.2 * m_net1 * dot arrays_to_convolve.2 history_subset)
    (history_subset.drop 1 ++ [new_val], (new_val, m_net1))

/-- Embedding of `compute_infections_from_rt`
(`pyrenew/latent/infection_functions.py`): scan the single-convolution
scanner (identity transform) over `Rt` with initial history `I0`. -/
def compute_infections_from_rt (I0 Rt reversed_generation_interval_pmf : List K) :
    List K :=
  (scan (new_convolve_scanner reversed_generation_interval_pmf id) I0 Rt).2

/-- Embedding of `compute_infections_from_rt_with_feedback`
(`pyrenew/latent/infection_functions.py`).  `expT` stands for the
ExpTransform() of the source (the real exponential), kept abstract so the
statement is about the structure of the source for any exponential map.
The source scans over the pair `(infection_feedback_strength, Rt_raw)`,
then multiplies the collected `m_net1` sequence by `Rt_raw` after the
scan. -/
def compute_infections_from_rt_with_feedback (expT : K → K)
    (I0 Rt_raw infection_feedback_strength : List K)
    (reversed_generation_interval_pmf reversed_infection_feedback_pmf : List K) :
    List K × List K :=
  let feedback_scanner :=
    new_double_convolve_scanner
      (reversed_infection_feedback_pmf, reversed_generation_interval_pmf)
      (expT, id)
  let scanned := scan feedback_scanner I0 (infection_feedback_strength.zip Rt_raw)
  let infections := scanned.2.map Prod.fst
  let R_adjustment := scanned.2.map Prod.snd
  (infections, List.zipWith (fun u v => u * v) R_adjustment Rt_raw)

/-! ### Helper lemmas about `scan` and list indexing -/

theorem scan_nil {σ τ β : Type} (f : σ → τ → σ × β) (s : σ) :
    scan f s [] = (s, []) := rfl

theorem scan_cons {σ τ β : Type} (f : σ → τ → σ × β) (s : σ) (x : τ) (xs : List τ) :
    scan f s (x :: xs) =
      ((scan f (f s x).1 xs).1, (f s x).2 :: (scan f (f s x).1 xs).2) := rfl

theorem scan_snd_length {σ τ β : Type} (f : σ → τ → σ × β) :
    ∀ (xs : List τ) (s : σ), ((scan f s xs).2).length = xs.length := by
  intro xs
  induction xs with
  | nil => intro s; rfl
  | cons x xs ih =>
    intro s
    rw [scan_cons]
    simp [ih]

theorem scan_snd_getD {σ τ β : Type} (f : σ → τ → σ × β) (dβ : β) (dτ : τ) :
    ∀ (xs : List τ) (s : σ) (t : ℕ), t < xs.length →
      ((scan f s xs).2).getD t dβ = (f (scan f s (xs.take t)).1 (xs.getD t dτ)).2 := by
  intro xs
  induction xs with
  | nil => intro s t ht; simp at ht
  | cons x xs ih =>
    intro s t ht
    rw [scan_cons]
    cases t with
    | zero => simp [scan_nil]
    | succ t =>
      simp only [List.getD_cons_succ, List.take_succ_cons, scan_cons]
      exact ih (f s x).1 t (by simpa using ht)

theorem getD_map {α β : Type} (f : α → β) (d : α) (e : β) :
    ∀ (l : List α) (t : ℕ), t < l.length →
      (l.map f).getD t e = f (l.getD t d) := by
  intro l
  induction l with
  | nil => intro t ht; simp at ht
  | cons x xs ih =>
    intro t ht
    cases t with
    | zero => simp
    | succ t => simpa using ih t (by simpa using ht)

theorem getD_zip {α β : Type} (dα : α) (dβ : β) :
    ∀ (l : List α) (r : List β) (t : ℕ), t < l.length → t < r.length →
      (l.zip r).getD t (dα, dβ) = (l.getD t dα, r.getD t dβ) := by
  intro l
  induction l with
  | nil => intro r t ht _; simp at ht
  | cons x xs ih =>
    intro r t ht hr
    cases r with
    | nil => simp at hr
    | cons y ys =>
      cases t with
      | zero => simp
      | succ t =>
        simpa using ih ys t (by simpa using ht) (by simpa using hr)

theorem getD_zipWith {α β γ : Type} (g : α → β → γ) (dα : α) (dβ : β) (dγ : γ) :
    ∀ (l : List α) (r : List β) (t : ℕ), t < l.length → t < r.length →
      (List.zipWith g l r).getD t dγ = g (l.getD t dα) (r.getD t dβ) := by
  intro l
  induction l with
  | nil => intro r t ht _; simp at ht
  | cons x xs ih =>
    intro r t ht hr
    cases r with
    | nil => simp at hr
    | cons y ys =>
      cases t with
      | zero => simp
      | succ t =>
        simpa using ih ys t (by simpa using ht) (by simpa using hr)

theorem zipWith_mul_map_one (K : Type) [Field K] :
    ∀ (l : List K) (r : List K), l.length = r.length →
      List.zipWith (fun u v => u * v) (l.map fun _ => (1 : K)) r = r := by
  intro l
  induction l with
  | nil =>
    intro r hl
    have : r = [] := List.eq_nil_of_length_eq_zero (by simpa using hl.symm)
    simp [this]
  | cons x xs ih =>
    intro r hl
    cases r with
    | nil => simp at hl
    | cons y ys =>
      simp only [List.map_cons, List.zipWith_cons_cons, one_mul]
      rw [ih ys (by simpa using hl)]

/-- Core lemma for the zero-feedback case: with all feedback strengths
zero and `expT 0 = 1`, the double-convolution scan agrees with the
single-convolution scan, the per-step `m_net1` being constantly `1`. -/
theorem scan_double_zero (expT : K → K) (hexp : expT 0 = 1) (g fb : List K) :
    ∀ (Rt strength I0 : List K), strength.length = Rt.length →
      (∀ s ∈ strength, s = 0) →
      scan (new_double_convolve_scanner (fb, g) (expT, id)) I0 (strength.zip Rt)
        = ((scan (new_convolve_scanner g id) I0 Rt).1,
           (scan (new_convolve_scanner g id) I0 Rt).2.map (fun v => (v, (1 : K)))) := by
  intro Rt
  induction Rt with
  | nil =>
    intro strength I0 hlen _
    have hs : strength = [] := List.eq_nil_of_length_eq_zero (by simpa using hlen)
    simp [hs, scan_nil]
  | cons r rs ih =>
    intro strength I0 hlen hz
    cases strength with
    | nil => simp at hlen
    | cons s ss =>
      have hs : s = 0 := hz s (List.mem_cons_self s ss)
      have hstep :
          new_double_convolve_scanner (fb, g) (expT, id) I0 (s, r)
            = ((new_convolve_scanner g id I0 r).1,
               ((new_convolve_scanner g id I0 r).2, (1 : K))) := by
        simp only [new_double_convolve_scanner, new_convolve_scanner, hs,
          zero_mul, hexp, mul_one, id_eq]
      rw [List.zip_cons_cons, scan_cons, scan_cons, hstep]
      rw [ih ss (new_convolve_scanner g id I0 r).1 (by simpa using hlen)
        (fun x hx => hz x (List.mem_cons_of_mem s hx))]
      simp

/-- C1: with identically-zero feedback strength, the Infection-Feedback
Engine returns the infection trajectory of the Renewal Incidence Engine on the
same `I0`, `Rt` and generation-interval pmf (for any reversed feedback
pmf), and the adjusted reproduction numbers equal the raw `Rt`
element-wise.  `expT` models the exponential transform of the source, for
which `expT 0 = 1` holds. -/
theorem zero_feedback_equivalence (expT : K → K) (hexp : expT 0 = 1)
    (I0 Rt strength g fb : List K)
    (hlen : strength.length = Rt.length)
    (hzero : ∀ s ∈ strength, s = 0) :
    compute_infections_from_rt_with_feedback expT I0 Rt strength g fb
      = (compute_infections_from_rt I0 Rt g, Rt) := by
  have hmain := scan_double_zero expT hexp g fb Rt strength I0 hlen hzero
  have hout : ((scan (new_convolve_scanner g id) I0 Rt).2).length = Rt.length :=
    scan_snd_length _ Rt I0
  simp only [compute_infections_from_rt_with_feedback, compute_infections_from_rt,
    hmain, List.map_map]
  refine Prod.ext ?_ ?_
  · rw [show (Prod.fst ∘ fun v : K => (v, (1 : K))) = id from rfl, List.map_id]
  · show List.zipWith (fun u v => u * v)
      ((scan (new_convolve_scanner g id) I0 Rt).2.map
        (Prod.snd ∘ fun v : K => (v, (1 : K)))) Rt = Rt
    rw [show (Prod.snd ∘ fun v : K => (v, (1 : K))) = fun _ : K => (1 : K) from rfl]
    exact zipWith_mul_map_one K _ Rt hout

/-- C1 witness: concrete instantiation at `K = ℚ` with a concrete
transform satisfying `expT 0 = 1`. -/
theorem zero_feedback_equivalence_witness :
    ((fun x : ℚ => x + 1) 0 = 1)
    ∧ (∀ s ∈ ([0, 0] : List ℚ), s = 0)
    ∧ compute_infections_from_rt_with_feedback (fun x : ℚ => x + 1)
        [1, 1] [2, 3] [0, 0] [1/2, 1/2] [1, 3]
        = (compute_infections_from_rt [1, 1] [2, 3] [1/2, 1/2], [2, 3]) :=
  ⟨by norm_num, by decide,
    zero_feedback_equivalence (fun x : ℚ => x + 1) (by norm_num)
      [1, 1] [2, 3] [0, 0] [1/2, 1/2] [1, 3] (by decide) (by decide)⟩

/-- C5: the step function built by `new_convolve_scanner` maps
`(history, m)` to `(history.drop 1 ++ [v], v)` with
`v = f (m * dot d history)`; the step function built by
`new_double_convolve_scanner` maps `(history, (m1, m2))` to
`(history.drop 1 ++ [x], (x, y))` with `y = f1 (m1 * dot d1 history)`
and `x = f2 (m2 * y * dot d2 history)`. -/
theorem scanner_step_forms :
    (∀ (d : List K) (f : K → K) (hist : List K) (m : K),
      new_convolve_scanner d f hist m
        = (hist.drop 1 ++ [f (m * dot d hist)], f (m * dot d hist)))
    ∧ (∀ (d1 d2 : List K) (f1 f2 : K → K) (hist : List K) (m1 m2 : K),
      new_double_convolve_scanner (d1, d2) (f1, f2) hist (m1, m2)
        = (hist.drop 1 ++ [f2 (m2 * f1 (m1 * dot d1 hist) * dot d2 hist)],
           (f2 (m2 * f1 (m1 * dot d1 hist) * dot d2 hist),
            f1 (m1 * dot d1 hist)))) :=
  ⟨fun _ _ _ _ => rfl, fun _ _ _ _ _ _ _ => rfl⟩

/-- C9 (amended to nonempty windows): one step of either scanner
preserves the length of a nonempty history window whose length equals
the kernel length, and the carried window keeps that length across every
scan. -/
theorem history_window_length_invariant :
    (∀ (d : List K) (f : K → K) (hist : List K) (m : K),
      hist.length = d.length → 0 < hist.length →
      ((new_convolve_scanner d f hist m).1).length = hist.length)
    ∧ (∀ (d1 d2 : List K) (f1 f2 : K → K) (hist : List K) (m1 m2 : K),
      hist.length = d1.length → 0 < hist.length →
      ((new_double_convolve_scanner (d1, d2) (f1, f2) hist (m1, m2)).1).length
        = hist.length)
    ∧ (∀ (d : List K) (f : K → K) (hist : List K) (xs : List K),
      0 < hist.length →
      ((scan (new_convolve_scanner d f) hist xs).1).length = hist.length)
    ∧ (∀ (d1 d2 : List K) (f1 f2 : K → K) (hist : List K) (xs : List (K × K)),
      0 < hist.length →
      ((scan (new_double_convolve_scanner (d1, d2) (f1, f2)) hist xs).1).length
        = hist.length) := by
  have hsingle : ∀ (d : List K) (f : K → K) (hist : List K) (m : K),
      0 < hist.length →
      ((new_convolve_scanner d f hist m).1).length = hist.length := by
    intro d f hist m hpos
    simp only [new_convolve_scanner, List.length_append, List.length_drop,
      List.length_cons, List.length_nil]
    omega
  have hdouble : ∀ (d1 d2 : List K) (f1 f2 : K → K) (hist : List K) (m1 m2 : K),
      0 < hist.length →
      ((new_double_convolve_scanner (d1, d2) (f1, f2) hist (m1, m2)).1).length
        = hist.length := by
    intro d1 d2 f1 f2 hist m1 m2 hpos
    simp only [new_double_convolve_scanner, List.length_append, List.length_drop,
      List.length_cons, List.length_nil]
    omega
  refine ⟨fun d f hist m _ h => hsingle d f hist m h,
    fun d1 d2 f1 f2 hist m1 m2 _ h => hdouble d1 d2 f1 f2 hist m1 m2 h, ?_, ?_⟩
  · intro d f hist xs
    induction xs generalizing hist with
    | nil => intro _; rfl
    | cons x xs ih =>
      intro hpos
      rw [scan_cons]
      have hstep := hsingle d f hist x hpos
      rw [ih _ (by omega)]
      exact hstep
  · intro d1 d2 f1 f2 hist xs
    induction xs generalizing hist with
    | nil => intro _; rfl
    | cons x xs ih =>
      intro hpos
      rw [scan_cons]
      have hstep := hdouble d1 d2 f1 f2 hist x.1 x.2 hpos
      have hx : (x.1, x.2) = x := rfl
      rw [hx] at hstep
      rw [ih _ (by omega)]
      exact hstep

/-- C9 witness: concrete window-length preservation at `K = ℚ`. -/
theorem history_window_length_invariant_witness :
    ((new_convolve_scanner ([1, 2] : List ℚ) id [3, 4] 5).1).length = 2
    ∧ ((new_double_convolve_scanner (([1] : List ℚ), [2]) (id, id) [3] (4, 5)).1).length = 1
    ∧ ((scan (new_convolve_scanner ([1, 2] : List ℚ) id) [3, 4] [5, 6, 7]).1).length = 2
    ∧ ((scan (new_double_convolve_scanner (([1] : List ℚ), [2]) (id, id)) [3]
        [(4, 5), (6, 7)]).1).length = 1 :=
  ⟨(@history_window_length_invariant ℚ _).1 [1, 2] id [3, 4] 5 (by decide) (by decide),
   (@history_window_length_invariant ℚ _).2.1 [1] [2] id id [3] 4 5 (by decide) (by decide),
   (@history_window_length_invariant ℚ _).2.2.1 [1, 2] id [3, 4] [5, 6, 7] (by decide),
   (@history_window_length_invariant ℚ _).2.2.2 [1] [2] id id [3] [(4, 5), (6, 7)] (by decide)⟩

/-- C9 counterexample: with an empty kernel and an empty history window
(window length equals kernel length), one step of the single-convolution
scanner returns a window of length one, not the input length zero. -/
theorem history_window_length_counterexample :
    ((new_convolve_scanner ([] : List ℚ) id [] 1).1).length ≠ ([] : List ℚ).length := by
  decide

/-- C4: for every step `t`, the adjusted reproduction number satisfies
`Rt_adjusted[t] = Rt_raw[t] * m_net1[t]` with
`m_net1[t] = expT (strength[t] * dot fb history_t)`, where `history_t`
is the scan carry after `t` steps; and the adjusted trajectory is the
element-wise product of the collected `m_net1` sequence with `Rt_raw`,
formed after the scan completes. -/
theorem adjusted_rt_formula (expT : K → K)
    (I0 Rt strength g fb : List K)
    (hlen : strength.length = Rt.length) (t : ℕ) (ht : t < Rt.length) :
    ((compute_infections_from_rt_with_feedback expT I0 Rt strength g fb).2).getD t 0
      = Rt.getD t 0 *
        expT (strength.getD t 0 *
          dot fb ((scan (new_double_convolve_scanner (fb, g) (expT, id)) I0
            ((strength.zip Rt).take t)).1))
    ∧ (compute_infections_from_rt_with_feedback expT I0 Rt strength g fb).2
      = List.zipWith (fun u v => u * v)
          (((scan (new_double_convolve_scanner (fb, g) (expT, id)) I0
            (strength.zip Rt)).2).map Prod.snd) Rt := by
  have hzlen : (strength.zip Rt).length = Rt.length := by
    rw [List.length_zip, hlen, min_self]
  have houtlen :
      ((scan (new_double_convolve_scanner (fb, g) (expT, id)) I0
        (strength.zip Rt)).2).length = Rt.length := by
    rw [scan_snd_length, hzlen]
  refine ⟨?_, rfl⟩
  have h1 : (compute_infections_from_rt_with_feedback expT I0 Rt strength g fb).2
      = List.zipWith (fun u v => u * v)
          (((scan (new_double_convolve_scanner (fb, g) (expT, id)) I0
            (strength.zip Rt)).2).map Prod.snd) Rt := rfl
  rw [h1]
  rw [getD_zipWith (fun u v => u * v) 0 0 0 _ Rt t
    (by rw [List.length_map, houtlen]; exact ht) ht]
  rw [getD_map Prod.snd ((0 : K), (0 : K)) 0 _ t (by rw [houtlen]; exact ht)]
  rw [scan_snd_getD _ ((0 : K), (0 : K)) ((0 : K), (0 : K)) _ I0 t
    (by rw [hzlen]; exact ht)]
  rw [getD_zip 0 0 strength Rt t (by rw [hlen]; exact ht) ht]
  simp only [new_double_convolve_scanner]
  exact mul_comm _ _

/-- C4 witness: concrete instantiation at `K = ℚ`, step `t = 1`. -/
theorem adjusted_rt_formula_witness :
    ((compute_infections_from_rt_with_feedback (fun x : ℚ => x + 1)
        [1, 2] [2, 3] [1, 4] [1/2, 1/2] [1, 1]).2).getD 1 0
      = ([2, 3] : List ℚ).getD 1 0 *
        (fun x : ℚ => x + 1) (([1, 4] : List ℚ).getD 1 0 *
          dot [1, 1] ((scan (new_double_convolve_scanner (([1, 1] : List ℚ), [1/2, 1/2])
            ((fun x : ℚ => x + 1), id)) [1, 2]
            ((([1, 4] : List ℚ).zip [2, 3]).take 1)).1))
    ∧ (compute_infections_from_rt_with_feedback (fun x : ℚ => x + 1)
        [1, 2] [2, 3] [1, 4] [1/2, 1/2] [1, 1]).2
      = List.zipWith (fun u v => u * v)
          (((scan (new_double_convolve_scanner (([1, 1] : List ℚ), [1/2, 1/2])
            ((fun x : ℚ => x + 1), id)) [1, 2]
            (([1, 4] : List ℚ).zip [2, 3])).2).map Prod.snd) [2, 3] :=
  adjusted_rt_formula (fun x : ℚ => x + 1) [1, 2] [2, 3] [1, 4] [1/2, 1/2] [1, 1]
    (by decide) 1 (by decide)

/-! ### Susceptible-depletion incidence step (`src/scratch/tut_epim_port_msr.py`) -/

/-- Embedding of `logistic_susceptibility_adjustment`
(`pyrenew/latent/infection_functions.py`): the logistic cap on raw
incidence; as above, `expT` models the exponential transform of the source. -/
def logistic_susceptibility_adjustment (expT : K → K)
    (I_raw_t frac_susceptible n_population : K) : K :=
  let approx_frac_infected := 1 - expT (-I_raw_t / n_population)
  n_population * frac_susceptible * approx_frac_infected

/-- Embedding of `update_infections` inside `CFAEPIM_Infections.sample`
(`src/scratch/tut_epim_port_msr.py`): one scan step over `Rt` carrying
`(S_t, I_recent)`.  Note the source updates the window with
`jnp.concatenate([I_recent[:-1], [i_t]])`, i.e. `I_recent.dropLast ++ [i_t]`. -/
def update_infections (expT : K → K) (gen_int_rev : List K) (P : K)
    (carry : K × List K) (Rt : K) : (K × List K) × K :=
  let S_t := carry.1
  let I_recent := carry.2
  let i_raw_t := Rt * dot I_recent gen_int_rev
  let i_t := logistic_susceptibility_adjustment expT i_raw_t (S_t / P) P
  ((S_t - i_t, I_recent.dropLast ++ [i_t]), i_t)

/-- C2: evaluation of `update_infections` showing the divergence of the code
from the specified window update.  The raw-incidence and logistic steps
and the susceptible update match the claim, but the code forms the new
window as `I_recent.dropLast ++ [i_t]` (dropping the newest element)
rather than `I_recent.drop 1 ++ [i_t]` (dropping the oldest): on the
window `[3, 5]` the two disagree. -/
theorem update_infections_window_divergence :
    (∀ (expT : ℚ → ℚ) (gen_int_rev : List ℚ) (P S_t : ℚ) (I_recent : List ℚ) (Rt : ℚ),
      update_infections expT gen_int_rev P (S_t, I_recent) Rt
        = ((S_t - logistic_susceptibility_adjustment expT
              (Rt * dot I_recent gen_int_rev) (S_t / P) P,
            I_recent.dropLast ++ [logistic_susceptibility_adjustment expT
              (Rt * dot I_recent gen_int_rev) (S_t / P) P]),
           logistic_susceptibility_adjustment expT
              (Rt * dot I_recent gen_int_rev) (S_t / P) P))
    ∧ (update_infections (fun x : ℚ => x + 1) [0, 1] 1 (1, [3, 5]) 1
        = ((-4, [3, 5]), 5))
    ∧ (([3, 5] : List ℚ) ≠ List.drop 1 [3, 5] ++ [5]) :=
  ⟨fun _ _ _ _ _ _ => rfl,
   by norm_num [update_infections, logistic_susceptibility_adjustment, dot],
   by norm_num⟩

/-! ### Periodic broadcaster (`src/model/src/pyrenew/arrayutils.py`) -/

/-- Model of `jnp.repeat(data, k)`: each element replicated `k` times,
contiguously. -/
def jnp_repeat (data : List K) (k : ℕ) : List K :=
  (data.map (List.replicate k)).flatten

/-- Model of `jnp.tile(data, reps)`: `data` concatenated with itself
`reps` times. -/
def jnp_tile (data : List K) (reps : ℕ) : List K :=
  (List.replicate reps data).flatten

/-- Model of the Python slice `l[a:b]` (clamped at the end of the list). -/
def pySlice {α : Type} (l : List α) (a b : ℕ) : List α :=
  (l.take b).drop a

/-- Embedding of the `PeriodicBroadcaster` configuration
(`src/model/src/pyrenew/arrayutils.py`): three immutable construction
parameters. -/
structure PeriodicBroadcaster where
  offset : ℕ
  period_size : ℕ
  broadcast_type : String

/-- Embedding of `PeriodicBroadcaster.validate`: `period_size` positive,
`offset` in `[0, period_size - 1]` (nonnegativity is carried by the `ℕ`
type), `broadcast_type` one of `repeat` / `tile`. -/
def PeriodicBroadcaster.valid (b : PeriodicBroadcaster) : Bool :=
  decide (0 < b.period_size) && decide (b.offset + 1 ≤ b.period_size)
    && (b.broadcast_type == "repeat" || b.broadcast_type == "tile")

/-- Embedding of `PeriodicBroadcaster.__call__`: in `repeat` mode,
`jnp.repeat(data, period_size)[offset : offset + n_timepoints]`; in
`tile` mode, `jnp.tile(data, ceil(n_timepoints / period_size))` sliced
the same way.  (The source has no other branch; for a validated
broadcaster one of the two is taken.  `(n + p - 1) / p` is
`ceil(n / p)` for `p > 0`.) -/
def PeriodicBroadcaster.call (b : PeriodicBroadcaster) (data : List K)
    (n_timepoints : ℕ) : List K :=
  if b.broadcast_type == "repeat" then
    pySlice (jnp_repeat data b.period_size) b.offset (b.offset + n_timepoints)
  else if b.broadcast_type == "tile" then
    pySlice (jnp_tile data ((n_timepoints + b.period_size - 1) / b.period_size))
      b.offset (b.offset + n_timepoints)
  else
    []

/-- C3: evaluation of the `repeat` branch at a duration exceeding
`len(data) * period_size`: the validly-constructed broadcaster returns a
truncated array of length `4`, not the requested `5` — the expansion is
not extended before slicing, contradicting the claim (and the docstring
in the source itself). -/
theorem periodic_broadcaster_repeat_truncates :
    ((PeriodicBroadcaster.mk 0 2 "repeat").valid = true)
    ∧ (PeriodicBroadcaster.mk 0 2 "repeat").call ([1, 2] : List ℚ) 5 = [1, 1, 2, 2]
    ∧ (((PeriodicBroadcaster.mk 0 2 "repeat").call ([1, 2] : List ℚ) 5).length ≠ 5) := by
  refine ⟨by decide, by decide, by decide⟩

/-! ### Differenced process (`src/pyrenew/process/differencedprocess.py`) -/

/-- A Python number as passed for `n`: either a genuine `int` or a
non-`int` numeric (modelled as a rational), mirroring the
`isinstance(n, int)` check of the source. -/
inductive PyNum where
  | int : ℤ → PyNum
  | float : ℚ → PyNum

/-- A JAX array argument for `init_vals`: 1-D or 2-D (the two shapes the
tests of the repository exercise).  `jnp.atleast_1d` is the identity on both. -/
inductive JaxArray where
  | one : List ℚ → JaxArray
  | two : List (List ℚ) → JaxArray

/-- `array.shape[0]` for the modelled arrays. -/
def JaxArray.shape0 : JaxArray → ℕ
  | .one l => l.length
  | .two m => m.length

/-- Running cumulative sum with accumulator `acc` (model of `jnp.cumsum`). -/
def cumsumAux (acc : ℚ) : List ℚ → List ℚ
  | [] => []
  | x :: xs => (acc + x) :: cumsumAux (acc + x) xs

/-- Model of `jnp.cumsum` on 1-D arrays. -/
def cumsum (l : List ℚ) : List ℚ := cumsumAux 0 l

/-- Modelled from the spec: `integrate_discrete` (`pyrenew.math`) is not
among the provided source files — only its caller
(`DifferencedProcess.sample`) and its tests are.  Per the spec (§4.6):
start with `diffs`; for each init taken in reverse order of `init_vals`,
prepend the init to the current sequence and take the running cumulative
sum.  This matches the manual reference implementation that the repository
itself ships in `test_differenced_process.py` (`test_integrator_correctness`). -/
def integrate_discrete (init_vals diffs : List ℚ) : List ℚ :=
  init_vals.reverse.foldl (fun acc init => cumsum (init :: acc)) diffs

/-- Embedding of the `DifferencedProcess` state: the fundamental process
is abstracted as the function giving the sequence of drawn difference
values for a requested number of draws. -/
structure DifferencedProcess where
  fundamental_process : ℕ → List ℚ
  differencing_order : ℕ

/-- Embedding of `DifferencedProcess.sample`
(`src/pyrenew/process/differencedprocess.py`), with its validation steps
in source order: the `isinstance(n, int)` check, the `n < 1` check, then
`jnp.atleast_1d` and the `shape[0] == differencing_order` check; then
`n_diffs = n - differencing_order` values are drawn when `n_diffs > 0`
(none otherwise) and `integrate_discrete(init_vals, diffs)[:n]` is
returned.  A 2-D `init_vals` that passes the `shape[0]` check would be
integrated batch-wise by the source; that branch is outside the modelled
1-D core and is mapped to a distinguished error (no claim depends on it). -/
def DifferencedProcess.sample (p : DifferencedProcess) (init_vals : JaxArray)
    (n : PyNum) : Except String (List ℚ) :=
  match n with
  | .float _ => .error "n must be an integer. Got a non-integer value."
  | .int z =>
    if z < 1 then .error ("n must be positive. Got " ++ toString z)
    else
      let n_inits := init_vals.shape0
      if n_inits ≠ p.differencing_order then
        .error ("Must have exactly as many initial difference values as the differencing order, given in the sequence X(t=0), X^1(t=1), et cetera. Got "
          ++ toString n_inits ++ " values for a process of order "
          ++ toString p.differencing_order ++ ".")
      else
        match init_vals with
        | .two _ => .error "batched 2-dimensional init_vals: outside the modelled 1-D core"
        | .one inits =>
          let n_diffs : ℤ := z - (p.differencing_order : ℤ)
          let diffs := if 0 < n_diffs then p.fundamental_process n_diffs.toNat else []
          .ok ((integrate_discrete inits diffs).take z.toNat)

/-- Substring test on the character lists of two strings (structural, so
it evaluates by kernel reduction). -/
def strContains (s pat : String) : Bool :=
  (List.range (s.toList.length + 1)).any
    (fun i => List.isPrefixOf pat.toList (s.toList.drop i))

/-- The message of an error result (empty string on success). -/
def errMsg : Except String (List ℚ) → String
  | .error e => e
  | .ok _ => ""

/-- Whether an `Except` result is an error. -/
def isErr {ε α : Type} : Except ε α → Bool
  | .error _ => true
  | .ok _ => false

theorem cumsumAux_length : ∀ (l : List ℚ) (a : ℚ), (cumsumAux a l).length = l.length := by
  intro l
  induction l with
  | nil => intro a; rfl
  | cons x xs ih => intro a; simp [cumsumAux, ih]

theorem integrate_foldl_length :
    ∀ (is acc : List ℚ),
      (is.foldl (fun a i => cumsum (i :: a)) acc).length = acc.length + is.length := by
  intro is
  induction is with
  | nil => intro acc; simp
  | cons x xs ih =>
    intro acc
    rw [List.foldl_cons, ih]
    simp [cumsum, cumsumAux_length]
    omega

theorem integrate_discrete_length (inits diffs : List ℚ) :
    (integrate_discrete inits diffs).length = inits.length + diffs.length := by
  unfold integrate_discrete
  rw [integrate_foldl_length]
  simp [Nat.add_comm]

theorem integrate_discrete_head (i : ℚ) (rest diffs : List ℚ) :
    (integrate_discrete (i :: rest) diffs).headD 0 = i := by
  unfold integrate_discrete
  rw [List.reverse_cons, List.foldl_append]
  simp [cumsum, cumsumAux]

/-- The success path of `sample` for 1-D `init_vals` of the right length
and a positive integer `n` not exceeding the differencing order: no draw
from the fundamental process occurs and the result is the `n`-prefix of
the integration of `init_vals` with no differences. -/
theorem sample_ok (f : ℕ → List ℚ) (k : ℕ) (inits : List ℚ)
    (hlen : inits.length = k) (n : ℕ) (h1 : 1 ≤ n) (hnk : n ≤ k) :
    (DifferencedProcess.mk f k).sample (JaxArray.one inits) (PyNum.int n)
      = .ok ((integrate_discrete inits []).take n) := by
  simp only [DifferencedProcess.sample, JaxArray.shape0, hlen]
  rw [if_neg (by omega : ¬ ((n : ℤ) < 1))]
  rw [if_neg (by omega : ¬ (k ≠ k))]
  rw [if_neg (by omega : ¬ ((0 : ℤ) < (n : ℤ) - (k : ℤ)))]
  simp [Int.toNat_natCast]

/-- C6 (amended): with `n` equal to the differencing order `k`, `sample`
draws nothing from the fundamental process (the result is the same for
any two fundamental processes) and returns the length-`k` integration of
`init_vals` with an empty difference sequence, whose first entry is
`init_vals[0]`. -/
theorem sample_at_order (k : ℕ) (hk : 1 ≤ k) (inits : List ℚ)
    (hlen : inits.length = k) (f g : ℕ → List ℚ) :
    (DifferencedProcess.mk f k).sample (JaxArray.one inits) (PyNum.int k)
        = .ok (integrate_discrete inits [])
    ∧ (DifferencedProcess.mk f k).sample (JaxArray.one inits) (PyNum.int k)
        = (DifferencedProcess.mk g k).sample (JaxArray.one inits) (PyNum.int k)
    ∧ (integrate_discrete inits []).length = k
    ∧ (integrate_discrete inits []).headD 0 = inits.headD 0 := by
  have hl : (integrate_discrete inits []).length = k := by
    rw [integrate_discrete_length]
    simpa using hlen
  have h1 := sample_ok f k inits hlen k hk le_rfl
  have h2 := sample_ok g k inits hlen k hk le_rfl
  refine ⟨?_, by rw [h1, h2], hl, ?_⟩
  · rw [h1, List.take_of_length_le (le_of_eq hl)]
  · cases inits with
    | nil => simp at hlen; omega
    | cons i rest => simpa using integrate_discrete_head i rest []

/-- C6 witness: concrete order-2 instantiation of `sample_at_order`. -/
theorem sample_at_order_witness :
    (DifferencedProcess.mk (fun m => List.replicate m 5) 2).sample
        (JaxArray.one [1, 1]) (PyNum.int 2)
        = .ok (integrate_discrete [1, 1] [])
    ∧ (DifferencedProcess.mk (fun m => List.replicate m 5) 2).sample
        (JaxArray.one [1, 1]) (PyNum.int 2)
        = (DifferencedProcess.mk (fun _ => []) 2).sample
            (JaxArray.one [1, 1]) (PyNum.int 2)
    ∧ (integrate_discrete [1, 1] []).length = 2
    ∧ (integrate_discrete [1, 1] []).headD 0 = ([1, 1] : List ℚ).headD 0 :=
  sample_at_order 2 (by norm_num) [1, 1] rfl (fun m => List.replicate m 5) (fun _ => [])

/-- C6 counterexample: for differencing order `2` with
`init_vals = [1, 1]`, `sample` at `n = 2` returns `[1, 2]`, not
`init_vals` — the integration reproduces `init_vals[0]` exactly but not
the later initial difference values. -/
theorem sample_at_order_counterexample :
    (DifferencedProcess.mk (fun _ => []) 2).sample (JaxArray.one [1, 1]) (PyNum.int 2)
        = .ok [1, 2]
    ∧ ([1, 2] : List ℚ) ≠ [1, 1] := by
  constructor
  · have h := sample_ok (fun _ => []) 2 [1, 1] rfl 2 (by norm_num) le_rfl
    simp only [Nat.cast_ofNat] at h
    rw [h]
    norm_num [integrate_discrete, cumsum, cumsumAux]
  · norm_num

/-- C10: for `1 ≤ n < k`, `sample` does not fail: it draws nothing from
the fundamental process and returns the first `n` entries of the series
integrated from `init_vals` alone, a list of length exactly `n`. -/
theorem sample_below_order (k : ℕ) (inits : List ℚ) (hlen : inits.length = k)
    (n : ℕ) (h1 : 1 ≤ n) (h2 : n < k) (f g : ℕ → List ℚ) :
    (DifferencedProcess.mk f k).sample (JaxArray.one inits) (PyNum.int n)
        = .ok ((integrate_discrete inits []).take n)
    ∧ ((integrate_discrete inits []).take n).length = n
    ∧ (DifferencedProcess.mk f k).sample (JaxArray.one inits) (PyNum.int n)
        = (DifferencedProcess.mk g k).sample (JaxArray.one inits) (PyNum.int n) := by
  refine ⟨sample_ok f k inits hlen n h1 h2.le, ?_,
    by rw [sample_ok f k inits hlen n h1 h2.le, sample_ok g k inits hlen n h1 h2.le]⟩
  rw [List.length_take, integrate_discrete_length]
  simp [hlen]
  omega

/-- C10 witness: order-3 process sampled at `n = 2`. -/
theorem sample_below_order_witness :
    (DifferencedProcess.mk (fun m => List.replicate m 5) 3).sample
        (JaxArray.one [1, 2, 3]) (PyNum.int 2)
        = .ok ((integrate_discrete [1, 2, 3] []).take 2)
    ∧ ((integrate_discrete [1, 2, 3] []).take 2).length = 2
    ∧ (DifferencedProcess.mk (fun m => List.replicate m 5) 3).sample
        (JaxArray.one [1, 2, 3]) (PyNum.int 2)
        = (DifferencedProcess.mk (fun _ => []) 3).sample
            (JaxArray.one [1, 2, 3]) (PyNum.int 2) :=
  sample_below_order 3 [1, 2, 3] rfl 2 (by norm_num) (by norm_num)
    (fun m => List.replicate m 5) (fun _ => [])

/-- C7: evaluation of `sample` at a 2-D `init_vals` (shape `(1, 3)`) for
an order-3 process: a `ValueError`-style failure is produced before any
integration, but its message is the wrong-length one — it contains
"exactly as many initial difference values" and does not contain
"1-dimensional", although the own test of the repository,
(`test_differenced_process.py`) requires a message matching
"1-dimensional" on this input. -/
theorem sample_onedim_message_divergence :
    (isErr ((DifferencedProcess.mk (fun _ => []) 3).sample
        (JaxArray.two [[1/4, 67/100, 5]]) (PyNum.int 1035)) = true)
    ∧ (strContains (errMsg ((DifferencedProcess.mk (fun _ => []) 3).sample
        (JaxArray.two [[1/4, 67/100, 5]]) (PyNum.int 1035)))
        "exactly as many initial difference values" = true)
    ∧ (strContains (errMsg ((DifferencedProcess.mk (fun _ => []) 3).sample
        (JaxArray.two [[1/4, 67/100, 5]]) (PyNum.int 1035)))
        "1-dimensional" = false) := by
  set_option maxRecDepth 100000 in
  refine ⟨by decide, by decide, by decide⟩

/-! ### Array alignment (`src/model/src/pyrenew/arrayutils.py`) -/

/-- Model of `jnp.pad` with a `(before, after)` pad width and a constant
fill value. -/
def jnp_pad (l : List K) (pad_width : ℕ × ℕ) (fill_value : K) : List K :=
  List.replicate pad_width.1 fill_value ++ l ++ List.replicate pad_width.2 fill_value

/-- Embedding of `pad_to_match` (`src/model/src/pyrenew/arrayutils.py`):
the pad width is looked up from the direction first (an unknown
direction fails before any padding, regardless of the input lengths);
then, if `x` is longer, `fix_y` forbids padding `y`; otherwise the
shorter array is padded to the length of the longer one. -/
def pad_to_match (x y : List K) (fill_value : K) (pad_direction : String)
    (fix_y : Bool) : Except String (List K × List K) :=
  let x_len := x.length
  let y_len := y.length
  let pad_size := max x_len y_len - min x_len y_len
  let pad_width : Option (ℕ × ℕ) :=
    if pad_direction = "start" then some (pad_size, 0)
    else if pad_direction = "end" then some (0, pad_size)
    else none
  match pad_width with
  | none =>
    .error ("pad_direction must be either start or end. Got " ++ pad_direction ++ ".")
  | some pw =>
    if y_len < x_len then
      if fix_y then
        .error ("Cannot fix y when x is longer than y. x_len: "
          ++ toString x_len ++ ", y_len: " ++ toString y_len ++ ".")
      else .ok (x, jnp_pad y pw fill_value)
    else if x_len < y_len then .ok (jnp_pad x pw fill_value, y)
    else .ok (x, y)

/-- C8: `pad_to_match` fails exactly on an invalid `pad_direction`
(before any padding, even for equal-length inputs) or on `fix_y` with
`x` longer than `y`; otherwise it returns both sequences at equal
length — equal-length inputs unchanged, the shorter input padded with
the fill value at the requested end. -/
theorem pad_to_match_spec (x y : List K) (v : K) (dir : String) (fy : Bool) :
    (isErr (pad_to_match x y v dir fy) = true
        ↔ ((dir ≠ "start" ∧ dir ≠ "end") ∨ (fy = true ∧ y.length < x.length)))
    ∧ (x.length = y.length → (dir = "start" ∨ dir = "end") →
        pad_to_match x y v dir fy = .ok (x, y))
    ∧ (x.length < y.length →
        pad_to_match x y v "end" fy
          = .ok (x ++ List.replicate (y.length - x.length) v, y))
    ∧ (x.length < y.length →
        pad_to_match x y v "start" fy
          = .ok (List.replicate (y.length - x.length) v ++ x, y))
    ∧ (y.length < x.length → fy = false →
        pad_to_match x y v "end" fy
          = .ok (x, y ++ List.replicate (x.length - y.length) v))
    ∧ (y.length < x.length → fy = false →
        pad_to_match x y v "start" fy
          = .ok (x, List.replicate (x.length - y.length) v ++ y))
    ∧ (∀ a b : List K, pad_to_match x y v dir fy = .ok (a, b) →
        a.length = b.length) := by
  refine ⟨?_, ?_, ?_, ?_, ?_, ?_, ?_⟩
  · unfold pad_to_match
    by_cases hs : dir = "start" <;> by_cases he : dir = "end" <;>
      by_cases h1 : y.length < x.length <;> by_cases h2 : x.length < y.length <;>
      cases fy <;>
      simp [hs, he, h1, h2, isErr]
  · intro hxy hdir
    unfold pad_to_match
    rcases hdir with hs | he
    · simp [hs, hxy]
    · by_cases hs : dir = "start"
      · simp [hs, hxy]
      · simp [hs, he, hxy]
  · intro hxy
    unfold pad_to_match
    have h1 : ¬ (y.length < x.length) := Nat.lt_asymm hxy
    have h2 : max x.length y.length - min x.length y.length = y.length - x.length := by
      rw [Nat.max_eq_right hxy.le, Nat.min_eq_left hxy.le]
    simp [h1, hxy, jnp_pad, h2]
  · intro hxy
    unfold pad_to_match
    have h1 : ¬ (y.length < x.length) := Nat.lt_asymm hxy
    have h2 : max x.length y.length - min x.length y.length = y.length - x.length := by
      rw [Nat.max_eq_right hxy.le, Nat.min_eq_left hxy.le]
    simp [h1, hxy, jnp_pad, h2]
  · intro hxy hfy
    unfold pad_to_match
    have h2 : max x.length y.length - min x.length y.length = x.length - y.length := by
      rw [Nat.max_eq_left hxy.le, Nat.min_eq_right hxy.le]
    simp [hxy, hfy, jnp_pad, h2]
  · intro hxy hfy
    unfold pad_to_match
    have h2 : max x.length y.length - min x.length y.length = x.length - y.length := by
      rw [Nat.max_eq_left hxy.le, Nat.min_eq_right hxy.le]
    simp [hxy, hfy, jnp_pad, h2]
  · intro a b hok
    unfold pad_to_match at hok
    by_cases hs : dir = "start" <;> by_cases he : dir = "end" <;>
      by_cases h1 : y.length < x.length <;> by_cases h2 : x.length < y.length <;>
      cases fy <;>
      simp [hs, he, h1, h2, jnp_pad] at hok <;>
      rcases hok with ⟨rfl, rfl⟩ <;>
      (try simp [List.length_append, List.length_replicate]) <;>
      omega

/-- C8 witness: the concrete padding cases given in the spec. -/
theorem pad_to_match_spec_witness :
    pad_to_match ([1, 2] : List ℚ) [1, 2, 3, 4] 0 "end" false
      = .ok ([1, 2] ++ List.replicate 2 0, [1, 2, 3, 4])
    ∧ pad_to_match ([1, 2] : List ℚ) [1, 2, 3, 4] 0 "start" false
      = .ok (List.replicate 2 0 ++ [1, 2], [1, 2, 3, 4])
    ∧ isErr (pad_to_match ([1, 2, 3] : List ℚ) [1] 0 "end" true) = true :=
  ⟨(pad_to_match_spec [1, 2] [1, 2, 3, 4] 0 "end" false).2.2.1 (by decide),
   (pad_to_match_spec [1, 2] [1, 2, 3, 4] 0 "start" false).2.2.2.1 (by decide),
   ((pad_to_match_spec [1, 2, 3] [1] 0 "end" true).1).mpr (Or.inr ⟨rfl, by decide⟩)⟩

end Pyrenew
